import Mathlib

/-!
Verification of the data-cleaning and metric-derivation pipeline of
`src/dashboard.py` (HBO portfolio dashboard).  Numeric cells are modelled
as lists of characters; float values as rationals (`ℚ`).
-/

/-- Numeric value of a list of decimal digit characters, most significant first. -/
def digitsToNat (cs : List Char) : Nat :=
  cs.foldl (fun a c => 10 * a + (c.toNat - 48)) 0

/-- Every character of the list is a decimal digit. -/
def allDigits (cs : List Char) : Bool :=
  cs.all (·.isDigit)

/-- Split a list of characters at its unique dot, if the list contains exactly
one dot; `none` when the list has no dot or more than one. -/
def dotSplit : List Char → Option (List Char × List Char)
  | [] => none
  | c :: rest =>
    if c = '.' then
      if rest.contains '.' then none else some ([], rest)
    else
      (dotSplit rest).map (fun p => (c :: p.1, p.2))

/-- Python `float()` on an unsigned decimal literal: digits with at most one
dot, at least one digit overall (`"5."` and `".5"` are accepted, `""`, `"."`
and anything containing a non-digit are rejected). -/
def pyFloatCore (cs : List Char) : Option ℚ :=
  if cs.contains '.' then
    match dotSplit cs with
    | some (ip, fp) =>
      if (ip ++ fp) ≠ [] ∧ allDigits ip ∧ allDigits fp then
        some ((digitsToNat ip : ℚ) + (digitsToNat fp : ℚ) / (10 : ℚ) ^ fp.length)
      else none
    | none => none
  else
    if cs ≠ [] ∧ allDigits cs then some (digitsToNat cs : ℚ) else none

/-- Python `float()` with an optional leading sign. -/
def pyFloat (cs : List Char) : Option ℚ :=
  match cs with
  | [] => none
  | c :: rest =>
    if c = '-' then (pyFloatCore rest).map (fun q => -q)
    else if c = '+' then pyFloatCore rest
    else pyFloatCore (c :: rest)

/-- Python `int()` on a string: optional surrounding whitespace, optional
sign, then digits only (a decimal point is rejected).  This is the conversion
`astype(int)` applies to the `Total Shares` column (dashboard.py line 78). -/
def pyInt (cs : List Char) : Option Int :=
  match (cs.dropWhile (·.isWhitespace)).reverse.dropWhile (·.isWhitespace) |>.reverse with
  | [] => none
  | c :: rest =>
    if c = '-' then
      if rest ≠ [] ∧ allDigits rest then some (-(digitsToNat rest : Int)) else none
    else if c = '+' then
      if rest ≠ [] ∧ allDigits rest then some (digitsToNat rest : Int) else none
    else
      if allDigits (c :: rest) then some (digitsToNat (c :: rest) : Int) else none

/-- `str.strip()`: drop leading and trailing whitespace. -/
def pyStrip (cs : List Char) : List Char :=
  ((cs.dropWhile (·.isWhitespace)).reverse.dropWhile (·.isWhitespace)).reverse

/-- The lookahead `(?=\d{3}(?:\D|$))` of the invested-capital cleaning regex
(dashboard.py line 73): the next three characters are digits and are followed
by a non-digit or the end of the field. -/
def thousandsAhead : List Char → Bool
  | d1 :: d2 :: d3 :: t =>
    d1.isDigit && d2.isDigit && d3.isDigit &&
      (match t with
       | [] => true
       | x :: _ => !x.isDigit)
  | _ => false

/-- `re.sub(r"[,.](?=\d{3}(?:\D|$))", "", s)` (dashboard.py line 73): delete
every comma or point that is followed by exactly three digits and then a
non-digit or the end of the field. -/
def stripThousandSeps : List Char → List Char
  | [] => []
  | c :: rest =>
    if (c = ',' ∨ c = '.') ∧ thousandsAhead rest then stripThousandSeps rest
    else c :: stripThousandSeps rest

/-- `str.replace(",", ".")` applied to every character. -/
def commaToDot (c : Char) : Char :=
  if c = ',' then '.' else c

/-- Cleaning of one cell of a numeric price-series column
(dashboard.py lines 57-62): remove every point, replace every comma by a
point, convert to float. -/
def cleanPriceCell (cs : List Char) : Option ℚ :=
  pyFloat ((cs.filter (· ≠ '.')).map commaToDot)

/-- Cleaning of one cell of the `Invested Capital` column
(dashboard.py lines 69-76): remove every Euro sign, strip whitespace, delete
thousands separators by the lookahead rule, replace every comma by a point,
convert to float. -/
def cleanCapitalCell (cs : List Char) : Option ℚ :=
  pyFloat ((stripThousandSeps (pyStrip (cs.filter (· ≠ '€')))).map commaToDot)

/-- One row of the price-series sheet after cleaning (dashboard.py lines
49-62): a date (encoded as a number that increases with calendar time, e.g.
days since an epoch) and the five numeric columns. -/
structure PriceRow where
  date : Nat
  degiro : ℚ
  interactiveBrokers : ℚ
  totalHboValue : ℚ
  shares : ℚ
  hboSharePrice : ℚ
deriving DecidableEq

/-- One raw row of the ownership sheet (text cells, dashboard.py line 65). -/
structure RawOwnerRow where
  fullName : List Char
  investedCapital : List Char
  totalShares : List Char
deriving DecidableEq

/-- One row of the ownership table.  The three derived columns
(`Total Value (€)`, `Return (€)`, `ROI (%)`) are `none` until `process_data`
writes them into the table (dashboard.py lines 99-106). -/
structure OwnerRow where
  fullName : List Char
  investedCapital : ℚ
  totalShares : Int
  totalValue : Option ℚ
  returnEuro : Option ℚ
  roiPercent : Option ℚ
deriving DecidableEq

/-- Conversion of one raw ownership row (dashboard.py lines 69-78): clean the
`Invested Capital` cell, convert `Total Shares` with `astype(int)`.  No check
is made on the name and none on the sign of the share count. -/
def loadOwnerRow (r : RawOwnerRow) : Option OwnerRow :=
  match cleanCapitalCell r.investedCapital, pyInt r.totalShares with
  | some cap, some sh => some ⟨r.fullName, cap, sh, none, none, none⟩
  | _, _ => none

/-- Conversion of the whole ownership sheet: every row must convert, a single
failing cell fails the load (the `astype` calls of dashboard.py lines 69-78
raise on the first bad value and `load_data` returns `None`). -/
def loadOwnerTable : List RawOwnerRow → Option (List OwnerRow)
  | [] => some []
  | r :: rest =>
    match loadOwnerRow r, loadOwnerTable rest with
    | some o, some os => some (o :: os)
    | _, _ => none

/-- Date-descending comparison used by `sort_values("Date", ascending=False)`
(dashboard.py line 95). -/
def dateGe (a b : PriceRow) : Prop := b.date ≤ a.date

instance : DecidableRel dateGe := fun a b => Nat.decLe b.date a.date

instance : IsTotal PriceRow dateGe :=
  ⟨fun a b => (Nat.le_total b.date a.date).imp id id⟩

instance : IsTrans PriceRow dateGe :=
  ⟨fun _ _ _ h1 h2 => Nat.le_trans h2 h1⟩

/-- Date-ascending comparison (the spec's `sort ascending`). -/
def dateLe (a b : PriceRow) : Prop := a.date ≤ b.date

instance : DecidableRel dateLe := fun a b => Nat.decLe a.date b.date

instance : IsTotal PriceRow dateLe :=
  ⟨fun a b => (Nat.le_total a.date b.date).imp id id⟩

instance : IsTrans PriceRow dateLe :=
  ⟨fun _ _ _ h1 h2 => Nat.le_trans h1 h2⟩

/-- `hbo_df.sort_values("Date", ascending=False)` (dashboard.py line 95). -/
def sortByDateDesc (l : List PriceRow) : List PriceRow :=
  List.insertionSort dateGe l

/-- The failure of `process_data` on an empty price series: the spec's
`DomainError` (`.iloc[0]` on an empty frame raises, dashboard.py line 95). -/
inductive DomainError where
  | emptyPriceSeries
deriving DecidableEq

/-- Result of `process_data` (dashboard.py line 108): the latest share price,
the latest total value (AUM), and the ownership table — the same table that
was passed in, now carrying the three derived columns. -/
structure ProcessOutput where
  latestPrice : ℚ
  totalAum : ℚ
  owners : List OwnerRow
deriving DecidableEq

/-- `process_data` (dashboard.py lines 93-108): take the first row of the
date-descending sort as `latest_data`; read the latest price and the AUM from
it; write `Total Value (€)`, `Return (€)` and `ROI (%)` into the ownership
table, the ROI column being zero where `Invested Capital` is not positive. -/
def process_data (hbo : List PriceRow) (owner : List OwnerRow) :
    Except DomainError ProcessOutput :=
  match sortByDateDesc hbo with
  | [] => Except.error DomainError.emptyPriceSeries
  | latest :: _ =>
    let lp := latest.hboSharePrice
    let owners := owner.map (fun r =>
      let tv := (r.totalShares : ℚ) * lp
      let ret := tv - r.investedCapital
      let roi := if r.investedCapital > 0 then ret / r.investedCapital * 100 else 0
      { r with totalValue := some tv, returnEuro := some ret, roiPercent := some roi })
    Except.ok ⟨lp, latest.totalHboValue, owners⟩

/-- Sum of the `Invested Capital` column (`table_df["Invested (€)"].sum()`). -/
def sumInvested (rows : List OwnerRow) : ℚ :=
  (rows.map (·.investedCapital)).sum

/-- Sum of the `Total Shares` column. -/
def sumShares (rows : List OwnerRow) : Int :=
  (rows.map (·.totalShares)).sum

/-- Sum of the `Total Value (€)` column.  At the point where the code sums it
(dashboard.py line 193) the column has been written by `process_data`, so the
default for an absent cell is never exercised on the code's path. -/
def sumTotalValue (rows : List OwnerRow) : ℚ :=
  (rows.map (fun r => r.totalValue.getD 0)).sum

/-- Sum of the `Return (€)` column (dashboard.py line 194). -/
def sumReturn (rows : List OwnerRow) : ℚ :=
  (rows.map (fun r => r.returnEuro.getD 0)).sum

/-- The aggregate `TOTAL` row (dashboard.py lines 189-199). -/
structure TotalRow where
  invested : ℚ
  shares : Int
  totalValue : ℚ
  returnEuro : ℚ
  roiPercent : ℚ
deriving DecidableEq

/-- `total_row` (dashboard.py lines 189-199): sum the four numeric columns;
the aggregate ROI is recomputed from the summed figures, with the zero guard
on the summed capital. -/
def totalRow (rows : List OwnerRow) : TotalRow :=
  { invested := sumInvested rows
    shares := sumShares rows
    totalValue := sumTotalValue rows
    returnEuro := sumReturn rows
    roiPercent :=
      if sumInvested rows > 0 then sumReturn rows / sumInvested rows * 100 else 0 }

/-- Arithmetic mean of the per-row `ROI (%)` values (what the aggregate ROI
must *not* be). -/
def meanRoi (rows : List OwnerRow) : ℚ :=
  (rows.map (fun r => r.roiPercent.getD 0)).sum / rows.length

/-- Latest-row selection as the code does it (dashboard.py line 95): sort by
date descending and take the first row. -/
def latestByDescHead (l : List PriceRow) : Option PriceRow :=
  (sortByDateDesc l).head?

/-- Latest-row selection as the spec words it (spec §4.2 step 1): sort by
date ascending and take the last row. -/
def latestByAscLast (l : List PriceRow) : Option PriceRow :=
  (List.insertionSort dateLe l).getLast?

/-- C1, counterexample: the price-series normalization does not follow the
thousands/decimal disambiguation rule — `"1500.00"` parses to `150000`, not to
`1500`, because every point is deleted as a thousands separator. -/
theorem cleanPriceCell_not_disambiguating :
    cleanPriceCell "1500.00".data = some 150000 ∧
      cleanPriceCell "1500.00".data ≠ some 1500 := by
  constructor <;>
    simp +decide [cleanPriceCell, commaToDot, pyFloat, pyFloatCore, dotSplit,
      allDigits, digitsToNat, String.data]

/-- C1, amended: the price-series normalization deletes every point, then
turns every comma into a decimal point; so `"1.500,00"` parses to `1500`,
but `"1,500.00"` parses to `3/2 = 1.5` and `"1500.00"` to `150000`. -/
theorem cleanPriceCell_actual_behavior :
    cleanPriceCell "1.500,00".data = some 1500 ∧
      cleanPriceCell "1,500.00".data = some (3 / 2) ∧
      cleanPriceCell "1500.00".data = some 150000 := by
  refine ⟨?_, ?_, ?_⟩ <;>
    simp +decide [cleanPriceCell, commaToDot, pyFloat, pyFloatCore, dotSplit,
      allDigits, digitsToNat, String.data] <;> norm_num

/-- C2: the invested-capital normalization (strip the Euro sign and
whitespace, then delete the separators the lookahead rule flags as thousands
separators) maps `"1.500,00"`, `"1,500.00"` and `"1500.00"` to `1500` and
`"€ 2,144.68"` to `2144.68`. -/
theorem cleanCapitalCell_examples :
    cleanCapitalCell "1.500,00".data = some 1500 ∧
      cleanCapitalCell "1,500.00".data = some 1500 ∧
      cleanCapitalCell "€ 2,144.68".data = some (214468 / 100) ∧
      cleanCapitalCell "1500.00".data = some 1500 := by
  refine ⟨?_, ?_, ?_, ?_⟩ <;>
    simp +decide [cleanCapitalCell, commaToDot, stripThousandSeps,
      thousandsAhead, pyStrip, pyFloat, pyFloatCore, dotSplit, allDigits,
      digitsToNat, String.data] <;> norm_num

/-- Fixture price series of spec §8: 2024-01-01 at price 10, 2024-06-01 at
price 12 (dates encoded as yyyymmdd; only their order matters). -/
def fixturePrices : List PriceRow :=
  [⟨20240101, 0, 0, 0, 0, 10⟩, ⟨20240601, 0, 0, 0, 0, 12⟩]

/-- Fixture investor of spec §8: invested capital 1000, 100 shares. -/
def fixtureOwners : List OwnerRow :=
  [⟨"A".data, 1000, 100, none, none, none⟩]

/-- The fixture investor row as `process_data` leaves it in the table. -/
def fixtureProcessedRow : OwnerRow :=
  ⟨"A".data, 1000, 100, some 1200, some 200, some 20⟩

/-- C4: in every successful run of `process_data`, every row of the resulting
investor table satisfies `current_value = shares_held × latest_share_price`
and `return = current_value − invested_capital`; on the spec §8 fixture the
result is current value 1200, return 200, ROI 20. -/
theorem process_data_metrics :
    (∀ ps owners out, process_data ps owners = Except.ok out →
      ∀ r ∈ out.owners,
        r.totalValue = some ((r.totalShares : ℚ) * out.latestPrice) ∧
          r.returnEuro =
            some ((r.totalShares : ℚ) * out.latestPrice - r.investedCapital)) ∧
      process_data fixturePrices fixtureOwners =
        Except.ok ⟨12, 0, [fixtureProcessedRow]⟩ := by
  constructor
  · intro ps owners out hok r hr
    unfold process_data at hok
    cases hs : sortByDateDesc ps with
    | nil => rw [hs] at hok; exact absurd hok (by simp)
    | cons latest rest =>
      rw [hs] at hok
      simp only [Except.ok.injEq] at hok
      subst hok
      simp only [List.mem_map] at hr
      obtain ⟨r0, _, hr0⟩ := hr
      subst hr0
      simp
  · simp [process_data, sortByDateDesc, List.insertionSort, List.orderedInsert,
      dateGe, fixturePrices, fixtureOwners, fixtureProcessedRow]
    norm_num

/-- C4, witness: the general part of `process_data_metrics` instantiated on
the spec §8 fixture. -/
theorem process_data_metrics_witness :
    fixtureProcessedRow.totalValue =
      some ((fixtureProcessedRow.totalShares : ℚ) * 12) ∧
      fixtureProcessedRow.returnEuro =
        some ((fixtureProcessedRow.totalShares : ℚ) * 12 -
          fixtureProcessedRow.investedCapital) :=
  process_data_metrics.1 fixturePrices fixtureOwners
    ⟨12, 0, [fixtureProcessedRow]⟩ process_data_metrics.2
    fixtureProcessedRow (by simp)

/-- Fixture with a zero-capital investor. -/
def zeroCapOwners : List OwnerRow :=
  [⟨"Z".data, 0, 5, none, none, none⟩]

/-- The zero-capital investor row as `process_data` leaves it. -/
def zeroCapProcessedRow : OwnerRow :=
  ⟨"Z".data, 0, 5, some 60, some 60, some 0⟩

/-- C5: in every successful run of `process_data`, a row whose invested
capital is zero gets ROI exactly zero — the division is guarded by the
`Invested Capital > 0` mask (dashboard.py lines 102-106). -/
theorem roi_zero_of_zero_capital :
    ∀ ps owners out, process_data ps owners = Except.ok out →
      ∀ r ∈ out.owners, r.investedCapital = 0 → r.roiPercent = some 0 := by
  intro ps owners out hok r hr hcap
  unfold process_data at hok
  cases hs : sortByDateDesc ps with
  | nil => rw [hs] at hok; exact absurd hok (by simp)
  | cons latest rest =>
    rw [hs] at hok
    simp only [Except.ok.injEq] at hok
    subst hok
    simp only [List.mem_map] at hr
    obtain ⟨r0, _, hr0⟩ := hr
    subst hr0
    simp only at hcap ⊢
    rw [hcap]
    norm_num

/-- C5, witness: `roi_zero_of_zero_capital` on the zero-capital fixture. -/
theorem roi_zero_of_zero_capital_witness :
    zeroCapProcessedRow.roiPercent = some 0 :=
  roi_zero_of_zero_capital fixturePrices zeroCapOwners
    ⟨12, 0, [zeroCapProcessedRow]⟩
    (by simp [process_data, sortByDateDesc, List.insertionSort,
          List.orderedInsert, dateGe, fixturePrices, zeroCapOwners,
          zeroCapProcessedRow] <;> norm_num)
    zeroCapProcessedRow (by simp) rfl

/-- C6: on an empty price series `process_data` fails before computing
anything — no latest price, no AUM and no derived column exist in the error
result (`.iloc[0]` raises on the empty frame, dashboard.py line 95; the
spec's taxonomy calls this failure `DomainError`). -/
theorem process_data_empty_error :
    ∀ owners, process_data [] owners = Except.error DomainError.emptyPriceSeries :=
  fun _ => rfl

/-- Fixture for the aggregate-ROI claim: price 2, investor A with capital 100
and 100 shares (ROI 100%), investor B with capital 300 and 150 shares
(ROI 0%). -/
def aggPrices : List PriceRow :=
  [⟨20240101, 0, 0, 0, 0, 2⟩]

/-- The two investors of the aggregate-ROI fixture, before derivation. -/
def aggOwnersIn : List OwnerRow :=
  [⟨"A".data, 100, 100, none, none, none⟩,
   ⟨"B".data, 300, 150, none, none, none⟩]

/-- The aggregate-ROI fixture table after `process_data`. -/
def aggRows : List OwnerRow :=
  match process_data aggPrices aggOwnersIn with
  | Except.ok o => o.owners
  | Except.error _ => []

/-- C3: the `TOTAL` row's ROI is recomputed from the summed figures — summed
return over summed capital when the latter is positive, else zero — and on
the fixture with unequal per-row ROIs (100% and 0%) and unequal capitals
(100 and 300) it is 25, not the mean 50 of the per-row ROIs. -/
theorem totalRow_roi_formula (rows : List OwnerRow) (h : rows ≠ []) :
    (totalRow rows).roiPercent =
      (if sumInvested rows > 0 then sumReturn rows / sumInvested rows * 100
       else 0) ∧
      (totalRow aggRows).roiPercent ≠ meanRoi aggRows := by
  refine ⟨rfl, ?_⟩
  simp +decide [totalRow, sumInvested, sumReturn, meanRoi, aggRows,
    process_data, sortByDateDesc, List.insertionSort, List.orderedInsert,
    dateGe, aggPrices, aggOwnersIn] <;> norm_num

/-- C3, witness: `totalRow_roi_formula` on the fixture table itself. -/
theorem totalRow_roi_formula_witness :
    (totalRow aggRows).roiPercent =
      (if sumInvested aggRows > 0 then
        sumReturn aggRows / sumInvested aggRows * 100
       else 0) ∧
      (totalRow aggRows).roiPercent ≠ meanRoi aggRows :=
  totalRow_roi_formula aggRows
    (by simp +decide [aggRows, process_data, sortByDateDesc,
      List.insertionSort, List.orderedInsert, dateGe, aggPrices, aggOwnersIn])

/-- The base (pre-derivation) columns of an ownership row. -/
def ownerBase (r : OwnerRow) : List Char × ℚ × Int :=
  (r.fullName, r.investedCapital, r.totalShares)

/-- C8, counterexample: `process_data` does not leave the investor table as
it was — on the spec §8 fixture the table it returns is the input table with
the three derived columns written into it, which differs from the input. -/
theorem process_data_mutates_input :
    process_data fixturePrices fixtureOwners =
      Except.ok ⟨12, 0, [fixtureProcessedRow]⟩ ∧
      [fixtureProcessedRow] ≠ fixtureOwners := by
  constructor
  · simp [process_data, sortByDateDesc, List.insertionSort,
      List.orderedInsert, dateGe, fixturePrices, fixtureOwners,
      fixtureProcessedRow] <;> norm_num
  · simp [fixtureProcessedRow, fixtureOwners]

/-- C8, amended: `process_data` extends the investor table in place — the
base columns (name, invested capital, shares) keep their values, and every
row of the returned table carries the three derived columns. -/
theorem process_data_preserves_base :
    ∀ ps owners out, process_data ps owners = Except.ok out →
      out.owners.map ownerBase = owners.map ownerBase ∧
        ∀ r ∈ out.owners,
          r.totalValue.isSome ∧ r.returnEuro.isSome ∧ r.roiPercent.isSome := by
  intro ps owners out hok
  unfold process_data at hok
  cases hs : sortByDateDesc ps with
  | nil => rw [hs] at hok; exact absurd hok (by simp)
  | cons latest rest =>
    rw [hs] at hok
    simp only [Except.ok.injEq] at hok
    subst hok
    constructor
    · simp only [List.map_map]
      exact List.map_congr_left (fun r _ => rfl)
    · intro r hr
      simp only [List.mem_map] at hr
      obtain ⟨r0, _, hr0⟩ := hr
      subst hr0
      simp

/-- C8, witness: `process_data_preserves_base` on the spec §8 fixture. -/
theorem process_data_preserves_base_witness :
    ([fixtureProcessedRow].map ownerBase = fixtureOwners.map ownerBase) ∧
      ∀ r ∈ (⟨12, 0, [fixtureProcessedRow]⟩ : ProcessOutput).owners,
        r.totalValue.isSome ∧ r.returnEuro.isSome ∧ r.roiPercent.isSome :=
  process_data_preserves_base fixturePrices fixtureOwners
    ⟨12, 0, [fixtureProcessedRow]⟩
    (by simp [process_data, sortByDateDesc, List.insertionSort,
      List.orderedInsert, dateGe, fixturePrices, fixtureOwners,
      fixtureProcessedRow] <;> norm_num)

/-- A raw ownership row with a blank name and a negative share count. -/
def blankNegativeRow : RawOwnerRow :=
  ⟨[], "100".data, "-5".data⟩

/-- C7, counterexample: a row with a blank name and negative shares is
accepted by ingestion — `load_data` checks neither (dashboard.py lines
65-78), it only needs the two numeric cells to convert. -/
theorem loadOwnerTable_accepts_blank_negative :
    loadOwnerTable [blankNegativeRow] =
      some [⟨[], 100, -5, none, none, none⟩] ∧
      blankNegativeRow.fullName = [] ∧
      pyInt blankNegativeRow.totalShares = some (-5) := by
  refine ⟨?_, rfl, by decide⟩
  simp +decide [loadOwnerTable, loadOwnerRow, blankNegativeRow,
    cleanCapitalCell, stripThousandSeps, thousandsAhead, pyStrip, commaToDot,
    pyFloat, pyFloatCore, dotSplit, allDigits, digitsToNat, pyInt,
    String.data] <;> norm_num

/-- One raw row converts to `none` exactly when one of its two numeric cells
fails to convert. -/
theorem loadOwnerRow_none_iff (r : RawOwnerRow) :
    loadOwnerRow r = none ↔
      cleanCapitalCell r.investedCapital = none ∨
        pyInt r.totalShares = none := by
  unfold loadOwnerRow
  cases h1 : cleanCapitalCell r.investedCapital <;>
    cases h2 : pyInt r.totalShares <;> simp

/-- C7, amended: ingestion of the investor table fails exactly when some row
has an invested-capital cell or a shares cell that does not convert; blank
names and negative share counts are accepted. -/
theorem loadOwnerTable_none_iff (rows : List RawOwnerRow) :
    loadOwnerTable rows = none ↔
      ∃ r ∈ rows, cleanCapitalCell r.investedCapital = none ∨
        pyInt r.totalShares = none := by
  induction rows with
  | nil => simp [loadOwnerTable]
  | cons r rest ih =>
    constructor
    · intro h
      by_cases h1 : loadOwnerRow r = none
      · exact ⟨r, List.mem_cons_self r rest, (loadOwnerRow_none_iff r).mp h1⟩
      · obtain ⟨o, ho⟩ := Option.ne_none_iff_exists'.mp h1
        by_cases h2 : loadOwnerTable rest = none
        · obtain ⟨r', hr', hcond⟩ := ih.mp h2
          exact ⟨r', List.mem_cons_of_mem r hr', hcond⟩
        · obtain ⟨os, hos⟩ := Option.ne_none_iff_exists'.mp h2
          unfold loadOwnerTable at h
          rw [ho, hos] at h
          exact absurd h (by simp)
    · rintro ⟨r', hr', hcond⟩
      rcases List.mem_cons.mp hr' with rfl | hmem
      · have hn : loadOwnerRow r' = none := (loadOwnerRow_none_iff r').mpr hcond
        unfold loadOwnerTable
        rw [hn]
      · have hn : loadOwnerTable rest = none := ih.mpr ⟨r', hmem, hcond⟩
        unfold loadOwnerTable
        rw [hn]
        cases loadOwnerRow r <;> rfl

/-- C7, witness: a row whose shares cell does not parse makes the whole load
fail. -/
theorem loadOwnerTable_none_iff_witness :
    loadOwnerTable [⟨"A".data, "100".data, "abc".data⟩] = none :=
  (loadOwnerTable_none_iff [⟨"A".data, "100".data, "abc".data⟩]).mpr
    ⟨⟨"A".data, "100".data, "abc".data⟩, by simp, Or.inr (by decide)⟩

/-- The head of the date-descending sort is a maximal-date element of the
input. -/
theorem sorted_desc_head_max (l : List PriceRow) (hne : l ≠ []) :
    ∃ m, (sortByDateDesc l).head? = some m ∧ m ∈ l ∧
      ∀ x ∈ l, x.date ≤ m.date := by
  have hperm := List.perm_insertionSort dateGe l
  have hsorted := List.sorted_insertionSort dateGe l
  unfold sortByDateDesc
  cases hs : List.insertionSort dateGe l with
  | nil =>
    rw [hs] at hperm
    exact absurd hperm.symm.eq_nil hne
  | cons m t =>
    rw [hs] at hperm hsorted
    refine ⟨m, rfl, hperm.mem_iff.mp (List.mem_cons_self m t), ?_⟩
    intro x hx
    rcases List.mem_cons.mp (hperm.mem_iff.mpr hx) with rfl | hxt
    · exact Nat.le_refl _
    · exact (List.sorted_cons.mp hsorted).1 x hxt

/-- In a date-ascending sorted list, every element's date is at most the last
element's date. -/
theorem sorted_asc_le_getLast :
    ∀ {s : List PriceRow}, s.Sorted dateLe → ∀ (hne : s ≠ []),
      ∀ x ∈ s, x.date ≤ (s.getLast hne).date := by
  intro s
  induction s with
  | nil => intro _ hne; exact absurd rfl hne
  | cons a t ih =>
    intro hs hne x hx
    rcases List.sorted_cons.mp hs with ⟨ha, ht⟩
    cases t with
    | nil =>
      rcases List.mem_singleton.mp hx with rfl
      exact Nat.le_refl _
    | cons b t' =>
      have hne' : b :: t' ≠ [] := List.cons_ne_nil b t'
      rw [List.getLast_cons hne']
      rcases List.mem_cons.mp hx with rfl | hx'
      · exact ha _ (List.getLast_mem hne')
      · exact ih ht hne' x hx'

/-- The last row of the date-ascending sort is a maximal-date element of the
input. -/
theorem sorted_asc_getLast_max (l : List PriceRow) (hne : l ≠ []) :
    ∃ m, (List.insertionSort dateLe l).getLast? = some m ∧ m ∈ l ∧
      ∀ x ∈ l, x.date ≤ m.date := by
  have hperm := List.perm_insertionSort dateLe l
  have hsorted := List.sorted_insertionSort dateLe l
  have hne' : List.insertionSort dateLe l ≠ [] := by
    intro h
    rw [h] at hperm
    exact hne hperm.symm.eq_nil
  refine ⟨(List.insertionSort dateLe l).getLast hne',
    List.getLast?_eq_getLast_of_ne_nil hne',
    hperm.mem_iff.mp (List.getLast_mem hne'), ?_⟩
  intro x hx
  exact sorted_asc_le_getLast hsorted hne' x (hperm.mem_iff.mpr hx)

/-- Two maximal-date members of a list with pairwise distinct dates are the
same row. -/
theorem max_date_unique :
    ∀ {l : List PriceRow},
      l.Pairwise (fun a b => a.date ≠ b.date) →
      ∀ {m1 m2}, m1 ∈ l → m2 ∈ l →
        (∀ x ∈ l, x.date ≤ m1.date) → (∀ x ∈ l, x.date ≤ m2.date) →
        m1 = m2 := by
  intro l
  induction l with
  | nil => intro _ m1 m2 h1; cases h1
  | cons a t ih =>
    intro hpw m1 m2 h1 h2 hmax1 hmax2
    rcases List.pairwise_cons.mp hpw with ⟨ha, ht⟩
    rcases List.mem_cons.mp h1 with rfl | h1' <;>
      rcases List.mem_cons.mp h2 with rfl | h2'
    · rfl
    · exact absurd (Nat.le_antisymm
        (hmax2 _ (List.mem_cons_self m1 t))
        (hmax1 _ (List.mem_cons_of_mem m1 h2'))) (ha _ h2')
    · exact absurd (Nat.le_antisymm
        (hmax1 _ (List.mem_cons_self m2 t))
        (hmax2 _ (List.mem_cons_of_mem m2 h1'))) (ha _ h1')
    · exact ih ht h1' h2'
        (fun x hx => hmax1 x (List.mem_cons_of_mem a hx))
        (fun x hx => hmax2 x (List.mem_cons_of_mem a hx))

/-- C9: on a non-empty price series with pairwise distinct dates, the code's
latest-row selection (sort descending, take the first row) returns the same
row as the spec's (sort ascending, take the last row): the row of maximal
date. -/
theorem latest_selection_equivalent (l : List PriceRow) (hne : l ≠ [])
    (hpw : l.Pairwise (fun a b => a.date ≠ b.date)) :
    latestByDescHead l = latestByAscLast l ∧
      ∃ m, latestByDescHead l = some m ∧ m ∈ l ∧
        ∀ x ∈ l, x.date ≤ m.date := by
  obtain ⟨m1, hm1, hmem1, hmax1⟩ := sorted_desc_head_max l hne
  obtain ⟨m2, hm2, hmem2, hmax2⟩ := sorted_asc_getLast_max l hne
  have heq : m1 = m2 := max_date_unique hpw hmem1 hmem2 hmax1 hmax2
  constructor
  · unfold latestByDescHead latestByAscLast
    rw [hm1, hm2, heq]
  · exact ⟨m1, hm1, hmem1, hmax1⟩

/-- C9, witness: `latest_selection_equivalent` on the spec §8 fixture, whose
two dates are distinct. -/
theorem latest_selection_equivalent_witness :
    latestByDescHead fixturePrices = latestByAscLast fixturePrices ∧
      ∃ m, latestByDescHead fixturePrices = some m ∧ m ∈ fixturePrices ∧
        ∀ x ∈ fixturePrices, x.date ≤ m.date :=
  latest_selection_equivalent fixturePrices
    (by simp [fixturePrices]) (by simp [fixturePrices])

/-- A decimal digit is none of the separator characters the cleaners touch. -/
theorem digit_ne_seps (c : Char) (h : c.isDigit = true) :
    c ≠ ',' ∧ c ≠ '.' ∧ c ≠ '€' := by
  refine ⟨?_, ?_, ?_⟩ <;> rintro rfl <;> exact absurd h (by decide)

/-- A decimal digit is not whitespace. -/
theorem digit_not_ws (c : Char) (h : c.isDigit = true) :
    c.isWhitespace = false := by
  rcases Bool.eq_false_or_eq_true c.isWhitespace with ht | hf
  · exfalso
    unfold Char.isWhitespace at ht
    simp only [Bool.or_eq_true, decide_eq_true_eq] at ht
    rcases ht with ((rfl | rfl) | rfl) | rfl <;> exact absurd h (by decide)
  · exact hf

/-- Unpacking `allDigits`. -/
theorem all_digits_mem (cs : List Char) (h : allDigits cs = true) :
    ∀ c ∈ cs, c.isDigit = true := by
  intro c hc
  exact List.all_eq_true.mp h c hc

/-- `dropWhile` is the identity when no element satisfies the predicate. -/
theorem dropWhile_id_of_none (p : Char → Bool) (cs : List Char)
    (h : ∀ c ∈ cs, p c = false) : cs.dropWhile p = cs := by
  cases cs with
  | nil => rfl
  | cons a t => simp [List.dropWhile_cons, h a (List.mem_cons_self a t)]

/-- `str.strip()` is the identity on whitespace-free text. -/
theorem pyStrip_id (cs : List Char) (h : ∀ c ∈ cs, c.isWhitespace = false) :
    pyStrip cs = cs := by
  unfold pyStrip
  rw [dropWhile_id_of_none _ cs h,
    dropWhile_id_of_none _ cs.reverse (fun c hc => h c (List.mem_reverse.mp hc)),
    List.reverse_reverse]

/-- The thousands-separator deletion leaves digit-only text unchanged. -/
theorem stripThousandSeps_digits (cs : List Char)
    (h : ∀ c ∈ cs, c.isDigit = true) : stripThousandSeps cs = cs := by
  induction cs with
  | nil => rfl
  | cons c t ih =>
    have hd := h c (List.mem_cons_self c t)
    simp only [stripThousandSeps]
    rw [if_neg, ih (fun x hx => h x (List.mem_cons_of_mem c hx))]
    rintro ⟨hor, _⟩
    rcases hor with rfl | rfl <;> exact absurd hd (by decide)

/-- The lookahead cannot fire on a digit-only tail whose length is not 3. -/
theorem thousandsAhead_eq_false (fs : List Char)
    (h : ∀ c ∈ fs, c.isDigit = true) (hlen : fs.length ≠ 3) :
    thousandsAhead fs = false := by
  cases fs with
  | nil => rfl
  | cons d1 t1 =>
    cases t1 with
    | nil => rfl
    | cons d2 t2 =>
      cases t2 with
      | nil => rfl
      | cons d3 t3 =>
        cases t3 with
        | nil => exact absurd rfl hlen
        | cons x t4 =>
          have hx : x.isDigit = true := h x (by simp)
          simp [thousandsAhead, hx]

/-- The thousands-separator deletion leaves a canonical decimal string
(digits, one point, fractional part not of length 3) unchanged. -/
theorem stripThousandSeps_canonical (ds fs : List Char)
    (hds : ∀ c ∈ ds, c.isDigit = true) (hfs : ∀ c ∈ fs, c.isDigit = true)
    (hlen : fs.length ≠ 3) :
    stripThousandSeps (ds ++ '.' :: fs) = ds ++ '.' :: fs := by
  induction ds with
  | nil =>
    simp only [List.nil_append, stripThousandSeps]
    rw [if_neg, stripThousandSeps_digits fs hfs]
    rintro ⟨_, hta⟩
    rw [thousandsAhead_eq_false fs hfs hlen] at hta
    exact absurd hta (by simp)
  | cons d ds' ih =>
    have hd := hds d (List.mem_cons_self _ _)
    simp only [List.cons_append, stripThousandSeps, List.append_eq]
    rw [if_neg, ih (fun x hx => hds x (List.mem_cons_of_mem d hx))]
    rintro ⟨hor, _⟩
    rcases hor with rfl | rfl <;> exact absurd hd (by decide)

/-- The comma-to-point substitution is the identity on comma-free text. -/
theorem map_commaToDot_id (cs : List Char) (h : ∀ c ∈ cs, c ≠ ',') :
    cs.map commaToDot = cs := by
  induction cs with
  | nil => rfl
  | cons c t ih =>
    simp only [List.map_cons]
    rw [ih (fun x hx => h x (List.mem_cons_of_mem c hx))]
    unfold commaToDot
    rw [if_neg (h c (List.mem_cons_self c t))]

/-- `filter` is the identity when every element passes. -/
theorem filter_id_of_all (p : Char → Bool) (cs : List Char)
    (h : ∀ c ∈ cs, p c = true) : cs.filter p = cs :=
  List.filter_eq_self.mpr h

/-- C10, counterexample: price-series normalization is not idempotent — on
the canonical rendering `"1.5"` of the value `3/2` it yields `15`, because it
deletes the decimal point. -/
theorem cleanPriceCell_not_idempotent :
    cleanPriceCell "1.5".data = some 15 ∧
      pyFloat "1.5".data = some (3 / 2) ∧
      cleanPriceCell "1.5".data ≠ pyFloat "1.5".data := by
  refine ⟨?_, ?_, ?_⟩ <;>
    simp +decide [cleanPriceCell, commaToDot, pyFloat, pyFloatCore, dotSplit,
      allDigits, digitsToNat, String.data] <;> norm_num

/-- C10, amended: normalization is idempotent on already-normalized values
only where the deletion steps cannot fire — the invested-capital path leaves
a canonical decimal rendering (digits, one point, fractional part whose
length is not 3) and any integer rendering unchanged, and the price-series
path leaves integer renderings unchanged; the price-series path changes any
rendering that contains a decimal point (see the counterexample). -/
theorem clean_idempotent_on_canonical (ds fs : List Char)
    (h1 : ds ≠ []) (h2 : allDigits ds = true) (h3 : allDigits fs = true)
    (h4 : fs ≠ []) (h5 : fs.length ≠ 3) :
    cleanCapitalCell (ds ++ '.' :: fs) = pyFloat (ds ++ '.' :: fs) ∧
      cleanCapitalCell ds = pyFloat ds ∧
      cleanPriceCell ds = pyFloat ds := by
  have hds : ∀ c ∈ ds, c.isDigit = true := all_digits_mem ds h2
  have hfs : ∀ c ∈ fs, c.isDigit = true := all_digits_mem fs h3
  have hmem : ∀ c ∈ ds ++ '.' :: fs, c.isDigit = true ∨ c = '.' := by
    intro c hc
    rcases List.mem_append.mp hc with hcl | hcr
    · exact Or.inl (hds c hcl)
    · rcases List.mem_cons.mp hcr with rfl | hcf
      · exact Or.inr rfl
      · exact Or.inl (hfs c hcf)
  have hne_euro : ∀ c ∈ ds ++ '.' :: fs, (c ≠ '€' : Bool) = true := by
    intro c hc
    rcases hmem c hc with hdig | rfl
    · exact decide_eq_true (digit_ne_seps c hdig).2.2
    · decide
  have hno_ws : ∀ c ∈ ds ++ '.' :: fs, c.isWhitespace = false := by
    intro c hc
    rcases hmem c hc with hdig | rfl
    · exact digit_not_ws c hdig
    · decide
  have hno_comma : ∀ c ∈ ds ++ '.' :: fs, c ≠ ',' := by
    intro c hc
    rcases hmem c hc with hdig | rfl
    · exact (digit_ne_seps c hdig).1
    · decide
  refine ⟨?_, ?_, ?_⟩
  · unfold cleanCapitalCell
    rw [filter_id_of_all _ _ hne_euro, pyStrip_id _ hno_ws,
      stripThousandSeps_canonical ds fs hds hfs h5,
      map_commaToDot_id _ hno_comma]
  · unfold cleanCapitalCell
    rw [filter_id_of_all _ _
        (fun c hc => decide_eq_true (digit_ne_seps c (hds c hc)).2.2),
      pyStrip_id _ (fun c hc => digit_not_ws c (hds c hc)),
      stripThousandSeps_digits ds hds,
      map_commaToDot_id _ (fun c hc => (digit_ne_seps c (hds c hc)).1)]
  · unfold cleanPriceCell
    rw [filter_id_of_all _ _
        (fun c hc => decide_eq_true (digit_ne_seps c (hds c hc)).2.1),
      map_commaToDot_id _ (fun c hc => (digit_ne_seps c (hds c hc)).1)]

/-- C10, witness: `clean_idempotent_on_canonical` on the two-decimal
rendering `"1.50"` and the integer rendering `"1"`. -/
theorem clean_idempotent_on_canonical_witness :
    cleanCapitalCell (['1'] ++ '.' :: ['5', '0']) =
      pyFloat (['1'] ++ '.' :: ['5', '0']) ∧
      cleanCapitalCell ['1'] = pyFloat ['1'] ∧
      cleanPriceCell ['1'] = pyFloat ['1'] :=
  clean_idempotent_on_canonical ['1'] ['5', '0']
    (by decide) (by decide) (by decide) (by decide) (by decide)
